import Mathlib

/-!
Shallow embedding of the namespace engine of the term-e-ditor repository:
the `TreeNode`/`TreeStructure` classes (src/unnamed/part_000, module tree.js)
and the `VirtualFileSystem` path layer (src/js/vfs.js).

JavaScript objects are modelled by an arena: a `VFS` holds a list of `VNode`
records and node identity is the arena index.  Deleting a node from the tree
only detaches it (the JS object stays alive while referenced, e.g. by the
path cache), so arena slots are never removed.  Mutating methods are modelled
as functions `VFS → Except VErr α × VFS`; when the JS method throws midway,
the returned state keeps every mutation performed before the throw.
-/

namespace TermE

/-- A JSON-ish value, for the free-form property bags that `TreeStructure.fromJSON`
passes into `Object.assign`. -/
inductive JVal where
  | str (s : String)
  | num (n : Int)
  | null
deriving DecidableEq, Repr

/-- One `TreeNode` of tree.js.  `parent`/`children` hold arena indices.
The `_childrenMap` of the source is kept in sync with `children` by
`insert`/`delete`/`rn`, so child-by-name lookup is modelled as a scan of
`children` for the first child with the given key.  Fields that the engine
reads (`type`, `contents`, `size`, ...) are record fields; properties outside
that schema land in `extra` (JS would attach them directly to the object). -/
structure VNode where
  key : String
  parent : Option Nat := none
  children : List Nat := []
  type : Option String := none
  contents : Option String := none
  size : Nat := 0
  mime : String := ""
  permissions : String := ""
  modified : String := ""
  user : String := ""
  group : String := ""
  uid : String := ""
  extra : List (String × JVal) := []
deriving DecidableEq, Repr

/-- The `VirtualFileSystem` state: the tree arena, root and cwd references,
and the bounded FIFO path cache (`Map` iteration order = insertion order). -/
structure VFS where
  nodes : List VNode := []
  root : Option Nat := none
  cwd : Option Nat := none
  pathCache : List (String × Nat) := []
  maxCacheSize : Nat := 1000
  uidCtr : Nat := 0
  user : String := "root"
  now : String := "01/01/2026 00:00"
deriving DecidableEq, Repr

/-- Error taxonomy; constructors mirror the `Error`s thrown by the source. -/
inductive VErr where
  | missingArg (s : String)
  | pathNotFound (s : String)
  | notADirectory (s : String)
  | notAFile (s : String)
  | duplicateName (s : String)
  | nonEmptyDirectory (s : String)
  | cannotModifyRoot
  | cyclicMove
  | destNotDirectory
  | nameExists
  | fileExists (s : String)
  | fileNotFound (s : String)
  | rootExists
  | invalidNode
deriving DecidableEq, Repr

deriving instance DecidableEq for Except

def VFS.getNode (fs : VFS) (i : Nat) : Option VNode :=
  fs.nodes.get? i

def VFS.setNode (fs : VFS) (i : Nat) (n : VNode) : VFS :=
  { fs with nodes := fs.nodes.set i n }

def VFS.modifyNode (fs : VFS) (i : Nat) (f : VNode → VNode) : VFS :=
  match fs.nodes.get? i with
  | some n => { fs with nodes := fs.nodes.set i (f n) }
  | none => fs

def VFS.pushNode (fs : VFS) (n : VNode) : Nat × VFS :=
  (fs.nodes.length, { fs with nodes := fs.nodes ++ [n] })

/-- `getUid()` modelled deterministically via the fallback counter. -/
def VFS.freshUid (fs : VFS) : String × VFS :=
  ("UID-" ++ toString (fs.uidCtr + 1), { fs with uidCtr := fs.uidCtr + 1 })

/-! ### String helpers (structural, so concrete states evaluate by `decide`) -/

/-- JS `String.prototype.split("/")` on the character list. -/
def splitChars : List Char → List (List Char)
  | [] => [[]]
  | '/' :: rest => [] :: splitChars rest
  | c :: rest =>
    match splitChars rest with
    | h :: t => (c :: h) :: t
    | [] => [[c]]

def splitOnSlash (s : String) : List String :=
  (splitChars s.data).map List.asString

/-- JS `path.replace(/\/+$/g, "")`: strip every trailing slash. -/
def stripTrailingSlashes (p : String) : String :=
  List.asString (p.data.reverse.dropWhile (fun c => c == '/')).reverse

def listIsLead : List Char → List Char → Bool
  | [], _ => true
  | _ :: _, [] => false
  | a :: as, b :: bs => a == b && listIsLead as bs

/-- JS `s.startsWith(pre)`. -/
def strStartsWith (s pre : String) : Bool :=
  listIsLead pre.data s.data

def joinPath (l : List String) : String :=
  String.intercalate "/" l

/-- JS falsy-or default: `o || d` for strings (empty string is falsy). -/
def orFalsy (o : Option String) (d : String) : String :=
  match o with
  | some s => if s = "" then d else s
  | none => d

/-! ### TreeNode operations (tree.js) -/

/-- `TreeNode.findChild(key)`: the `_childrenMap` lookup, modelled as the first
child whose key matches (sibling keys are kept unique by `insert`). -/
def findChildId (fs : VFS) (p : Nat) (k : String) : Option Nat :=
  match fs.getNode p with
  | none => none
  | some pn => pn.children.find? (fun i => ((fs.getNode i).map VNode.key) == some k)

/-- `TreeNode.hasChild(key)`. -/
def hasChildKey (fs : VFS) (p : Nat) (k : String) : Bool :=
  (findChildId fs p k).isSome

/-- `TreeNode.insert(child)`: duplicate-key check, push to `children`,
index in `_childrenMap`, set the child's parent back-reference.
Returns the inserted child's id. -/
def insertChild (fs : VFS) (p c : Nat) : Except VErr Nat × VFS :=
  match fs.getNode p, fs.getNode c with
  | some pn, some cn =>
    if hasChildKey fs p cn.key then (.error (.duplicateName cn.key), fs)
    else
      let fs1 := fs.setNode p { pn with children := pn.children ++ [c] }
      let fs2 := fs1.modifyNode c (fun n => { n with parent := some p })
      (.ok c, fs2)
  | _, _ => (.error .invalidNode, fs)

/-- `TreeNode.delete(child)`: remove by identity (`indexOf`/`splice`, i.e.
first occurrence), drop the map entry, clear the child's parent. -/
def deleteChild (fs : VFS) (p c : Nat) : Bool × VFS :=
  match fs.getNode p with
  | none => (false, fs)
  | some pn =>
    if pn.children.contains c then
      let fs1 := fs.setNode p { pn with children := pn.children.erase c }
      let fs2 := fs1.modifyNode c (fun n => { n with parent := none })
      (true, fs2)
    else (false, fs)

/-- The strict ancestor chain of a node: `node.parent`, its parent, ...
Fuelled walk; in the source the `while` loop terminates exactly when the
parent chain is acyclic, which `fs.nodes.length + 1` fuel always covers. -/
def ancestorChain (fs : VFS) : Nat → Option Nat → List Nat
  | _, none => []
  | 0, some _ => []
  | fuel + 1, some i => i :: ancestorChain fs fuel ((fs.getNode i).bind VNode.parent)

/-- `TreeNode.isAncestorOf(node)`: walk `node`'s strict parent chain. -/
def isAncestorOfB (fs : VFS) (a b : Nat) : Bool :=
  (ancestorChain fs (fs.nodes.length + 1) ((fs.getNode b).bind VNode.parent)).contains a

/-- `TreeStructure.delete(node)` for a direct node reference: the root empties
the tree, otherwise the node is detached from its parent (if it has one). -/
def treeDelete (fs : VFS) (i : Nat) : Bool × VFS :=
  if fs.root = some i then (true, { fs with root := none })
  else
    match (fs.getNode i).bind VNode.parent with
    | some p => (true, (deleteChild fs p i).2)
    | none => (false, fs)

/-! ### Path layer (vfs.js) -/

/-- `_absolute_path(node)`: collect keys walking up until root (or a null
parent, which happens for detached nodes), root-first. -/
def chainKeys (fs : VFS) : Nat → Option Nat → List String
  | _, none => []
  | 0, some _ => []
  | fuel + 1, some i =>
    if fs.root = some i then []
    else
      match fs.getNode i with
      | none => []
      | some n => chainKeys fs fuel n.parent ++ [n.key]

def absolutePathOf (fs : VFS) (cur : Option Nat) : String :=
  "/" ++ joinPath (chainKeys fs (fs.nodes.length + 1) cur)

/-- `_normalizePath(path)`. -/
def normalizePath (fs : VFS) (path : String) : String :=
  if path = "" ∨ path = "." then absolutePathOf fs fs.cwd
  else if path = "/" then "/"
  else
    let basePath := if strStartsWith path "/" then "/" else absolutePathOf fs fs.cwd
    let segments := (splitOnSlash path).filter (fun s => s != "" && s != ".")
    let base := if basePath = "/" then [] else (splitOnSlash basePath).filter (fun s => s != "")
    let resolved := segments.foldl (fun acc s => if s = ".." then acc.dropLast else acc ++ [s]) base
    "/" ++ joinPath resolved

def walkSegs (fs : VFS) (cur : Nat) (done : List String) : List String → Except VErr Nat
  | [] => .ok cur
  | seg :: rest =>
    match findChildId fs cur seg with
    | some c => walkSegs fs c (done ++ [seg]) rest
    | none => .error (.pathNotFound ("/" ++ joinPath (done ++ [seg])))

/-- `_resolvePathUncached(normalizedPath)`: segment-by-segment walk from root. -/
def resolveUncached (fs : VFS) (np : String) : Except VErr Nat :=
  match fs.root with
  | none => .error .invalidNode
  | some r =>
    if np = "/" then .ok r
    else walkSegs fs r [] ((splitOnSlash np).filter (fun s => s != ""))

/-- `_resolve_path(path)`: cache lookup on the normalized path, else uncached
walk plus FIFO insertion.  The source's staleness guard
(`cached.parent !== undefined`) is vacuous — `TreeNode.parent` is initialized
to `null` and only ever set to `null` or a node, never `undefined` — so a
cache hit is always returned as-is. -/
def resolvePath (fs : VFS) (path : String) : Except VErr Nat × VFS :=
  if path = "" ∨ path = "." then
    match fs.cwd with
    | some c => (.ok c, fs)
    | none => (.error .invalidNode, fs)
  else if path = "/" then
    match fs.root with
    | some r => (.ok r, fs)
    | none => (.error .invalidNode, fs)
  else
    let np := normalizePath fs path
    match fs.pathCache.find? (fun e => e.1 == np) with
    | some e => (.ok e.2, fs)
    | none =>
      match resolveUncached fs np with
      | .error err => (.error err, fs)
      | .ok r =>
        let cache := if fs.maxCacheSize ≤ fs.pathCache.length then fs.pathCache.drop 1 else fs.pathCache
        (.ok r, { fs with pathCache := cache ++ [(np, r)] })

/-- `_invalidatePathCache(path)`: drop the raw path string and each
slash-separated leading portion of it (`segments.slice(0, i).join('/') || '/'`
for `i` from `segments.length - 1` down to `1`). -/
def invalidatePathCache (fs : VFS) (path : String) : VFS :=
  let c1 := fs.pathCache.filter (fun e => e.1 != path)
  let segments := splitOnSlash path
  let ancPaths := ((List.range segments.length).drop 1).map (fun i =>
    let s := joinPath (segments.take i)
    if s = "" then "/" else s)
  { fs with pathCache := ancPaths.foldl (fun c k => c.filter (fun e => e.1 != k)) c1 }

/-! ### VirtualFileSystem operations (vfs.js) -/

/-- Node used by `mkdir` for each missing segment. -/
def mkDirNode (fs : VFS) (key uid : String) : VNode :=
  { key := key, parent := none, children := [], uid := uid, size := 0,
    mime := "inode/directory", contents := none, type := some "dir",
    permissions := "rwxr-xr-x", modified := fs.now, user := fs.user,
    group := fs.user, extra := [] }

def mkdirLoop (fs : VFS) (cur : Nat) : List String → Except VErr Unit × VFS
  | [] => (.ok (), fs)
  | seg :: rest =>
    match findChildId fs cur seg with
    | none =>
      let (uid, fs1) := fs.freshUid
      let (nid, fs2) := fs1.pushNode (mkDirNode fs1 seg uid)
      match insertChild fs2 cur nid with
      | (.error e, fs3) => (.error e, fs3)
      | (.ok _, fs3) => mkdirLoop fs3 nid rest
    | some e =>
      match fs.getNode e with
      | none => (.error .invalidNode, fs)
      | some en =>
        if en.type = some "dir" then mkdirLoop fs e rest
        else (.error (.fileExists seg), fs)

/-- `mkdir(path)`: create every missing directory segment. -/
def mkdir (fs : VFS) (path : String) : Except VErr Unit × VFS :=
  if path = "" then (.error (.missingArg "path"), fs)
  else
    let segs := (splitOnSlash (stripTrailingSlashes path)).filter (fun s => s != "")
    let start := if strStartsWith path "/" then fs.root else fs.cwd
    match start with
    | none => (.error .invalidNode, fs)
    | some cur =>
      match mkdirLoop fs cur segs with
      | (.error e, fs1) => (.error e, fs1)
      | (.ok _, fs1) => (.ok (), invalidatePathCache fs1 path)

/-- `rmdir(path)`.  Note that the source computes both the current path and
the removed node's path only after `tree.delete`, when the node is already
detached (`node.parent` is `null`), and compares them with a raw
`startsWith` on strings. -/
def rmdir (fs : VFS) (path : String) : Except VErr Unit × VFS :=
  if path = "" then (.error (.missingArg "path"), fs)
  else
    match resolvePath fs (stripTrailingSlashes path) with
    | (.error e, fs1) => (.error e, fs1)
    | (.ok i, fs1) =>
      if fs1.root = some i then (.error .cannotModifyRoot, fs1)
      else
        match fs1.getNode i with
        | none => (.error .invalidNode, fs1)
        | some n =>
          if n.type ≠ some "dir" then (.error (.notADirectory n.key), fs1)
          else if n.children ≠ [] then (.error (.nonEmptyDirectory n.key), fs1)
          else
            let fs2 := (treeDelete fs1 i).2
            let currentPath := absolutePathOf fs2 fs2.cwd
            let nodePath := absolutePathOf fs2 (some i)
            let fs3 :=
              if strStartsWith currentPath nodePath then
                { fs2 with cwd := match (fs2.getNode i).bind VNode.parent with
                                  | some p => some p
                                  | none => fs2.root }
              else fs2
            (.ok (), invalidatePathCache fs3 path)

/-- `cd(path)`. -/
def cd (fs : VFS) (path : String) : Except VErr Nat × VFS :=
  if path = "" then (.error (.missingArg "path"), fs)
  else
    match resolvePath fs path with
    | (.error e, fs1) => (.error e, fs1)
    | (.ok i, fs1) =>
      match fs1.getNode i with
      | none => (.error .invalidNode, fs1)
      | some n =>
        if n.type ≠ some "dir" then (.error (.notADirectory path), fs1)
        else (.ok i, { fs1 with cwd := some i })

/-- `pwd()`. -/
def pwd (fs : VFS) : String :=
  absolutePathOf fs fs.cwd

/-- The path split performed by `cat`: strip trailing slashes, split on `/`,
pop the file name; the remainder re-joined is the parent path, defaulting to
`/` (absolute input) or `.` (relative input) when empty. -/
def catSplit (path : String) : String × String :=
  let segs := splitOnSlash (stripTrailingSlashes path)
  let fileName := segs.getLastD ""
  let joined := joinPath segs.dropLast
  let parentPath := if joined = "" then (if strStartsWith path "/" then "/" else ".") else joined
  (parentPath, fileName)

/-- The write tail of `cat`: `>` overwrites, anything else appends to
`node.contents || ""`; size becomes the UTF-8 byte length (`new Blob`),
the modified stamp is refreshed and the raw path string is invalidated. -/
def catWrite (fs : VFS) (mode path contents : String) (nid : Nat) : Except VErr (Option String) × VFS :=
  match fs.getNode nid with
  | none => (.error .invalidNode, fs)
  | some n =>
    let newContents := if mode = ">" then contents else (n.contents.getD "") ++ contents
    let fs1 := fs.setNode nid
      { n with contents := some newContents, size := newContents.utf8ByteSize, modified := fs.now }
    (.ok none, invalidatePathCache fs1 path)

/-- Node created by `cat` for a missing file. -/
def catNewFileNode (fs : VFS) (key uid : String) : VNode :=
  { key := key, parent := none, children := [], type := some "file",
    mime := "text/plain", modified := fs.now, uid := uid, user := fs.user,
    group := fs.user, contents := some "", size := 0,
    permissions := "rw-r--r--", extra := [] }

/-- The remainder of `cat` once the parent path has been resolved:
look up the file name under the parent, then read or (create and) write. -/
def catAfter (fs1 : VFS) (mode path contents fileName : String) (p : Nat) :
    Except VErr (Option String) × VFS :=
  if mode ≠ "" then
    match findChildId fs1 p fileName with
    | none =>
      let (uid, fs2) := fs1.freshUid
      let (nid, fs3) := fs2.pushNode (catNewFileNode fs2 fileName uid)
      match insertChild fs3 p nid with
      | (.error e, fs4) => (.error e, fs4)
      | (.ok _, fs4) => catWrite fs4 mode path contents nid
    | some c =>
      match fs1.getNode c with
      | none => (.error .invalidNode, fs1)
      | some cn =>
        if cn.type ≠ some "file" then (.error (.notAFile path), fs1)
        else catWrite fs1 mode path contents c
  else
    match findChildId fs1 p fileName with
    | none => (.error (.fileNotFound path), fs1)
    | some c =>
      match fs1.getNode c with
      | none => (.error .invalidNode, fs1)
      | some cn =>
        if cn.type ≠ some "file" then (.error (.notAFile path), fs1)
        else (.ok (some (cn.contents.getD "")), fs1)

/-- `cat(mode, path, contents)`: unified read (`mode = ""`) / write. -/
def cat (fs : VFS) (mode path contents : String) : Except VErr (Option String) × VFS :=
  if path = "" then (.error (.missingArg "path"), fs)
  else
    match resolvePath fs (catSplit path).1 with
    | (.error e, fs1) => (.error e, fs1)
    | (.ok p, fs1) => catAfter fs1 mode path contents (catSplit path).2 p

/-- `rn(oldPath, newName)`: in-place rename (rekeying the parent's map), then
invalidation of the *raw* `oldPath` string. -/
def rn (fs : VFS) (oldPath newName : String) : Except VErr Unit × VFS :=
  if oldPath = "" then (.error (.missingArg "oldPath"), fs)
  else if newName = "" then (.error (.missingArg "newName"), fs)
  else
    match resolvePath fs oldPath with
    | (.error e, fs1) => (.error e, fs1)
    | (.ok i, fs1) =>
      if fs1.root = some i then (.error .cannotModifyRoot, fs1)
      else
        match (fs1.getNode i).bind VNode.parent with
        | none => (.error .invalidNode, fs1)
        | some p =>
          if hasChildKey fs1 p newName then (.error .nameExists, fs1)
          else
            let fs2 := fs1.modifyNode i (fun n => { n with key := newName })
            (.ok (), invalidatePathCache fs2 oldPath)

/-- `mv`/`cp` accept either a path string or a direct node reference. -/
inductive NodeRef where
  | path (p : String)
  | node (i : Nat)

def refMissing : NodeRef → Bool
  | .path p => p = ""
  | .node _ => false

def resolveRef (fs : VFS) : NodeRef → Except VErr Nat × VFS
  | .node i => (.ok i, fs)
  | .path p => resolvePath fs p

/-- `mv(source, destination)`.  After the destination-type and cycle checks
the source is detached from its parent and only then inserted under the
destination; no path-cache invalidation is performed. -/
def mv (fs : VFS) (source destination : NodeRef) : Except VErr Nat × VFS :=
  if refMissing source then (.error (.missingArg "source"), fs)
  else if refMissing destination then (.error (.missingArg "destination"), fs)
  else
    match resolveRef fs source with
    | (.error e, fs1) => (.error e, fs1)
    | (.ok s, fs1) =>
      match resolveRef fs1 destination with
      | (.error e, fs2) => (.error e, fs2)
      | (.ok d, fs2) =>
        match fs2.getNode d with
        | none => (.error .invalidNode, fs2)
        | some dn =>
          if dn.type ≠ some "dir" then (.error .destNotDirectory, fs2)
          else if isAncestorOfB fs2 s d then (.error .cyclicMove, fs2)
          else
            match fs2.getNode s with
            | none => (.error .invalidNode, fs2)
            | some sn =>
              let fs3 := match sn.parent with
                         | some p => (deleteChild fs2 p s).2
                         | none => fs2
              insertChild fs3 d s

def mvNodes (fs : VFS) (a d : Nat) : Except VErr Nat × VFS :=
  mv fs (.node a) (.node d)

/-! ### `initStructure` (vfs.js) -/

mutual
/-- Input record consumed by `initStructure`.  The source reads exactly
`key`, `type`, `contents`, `mime`, `permissions` and `modified`; every other
input field (collected here in `extra`) is never looked at. -/
inductive IRec where
  | mk (key : String) (type_ : Option String) (contents : Option IContents)
       (mime : Option String) (permissions : Option String) (modified : Option String)
       (extra : List (String × JVal))
/-- `contents` is a string (file payload) or an array (child records). -/
inductive IContents where
  | str (s : String)
  | arr (l : IRecList)
inductive IRecList where
  | nil
  | cons (h : IRec) (t : IRecList)
end

/-- `Array.prototype.length` of a child-record list. -/
def IRecList.length : IRecList → Nat
  | .nil => 0
  | .cons _ t => 1 + IRecList.length t

/-- `TreeStructure.insert(key, parent, properties)` once the node record is
built: no parent and no root makes the node root; no parent with an existing
root is an error; otherwise insert under the given parent node. -/
def treeInsertReady (fs : VFS) (nd : VNode) (parent : Option Nat) : Except VErr Nat × VFS :=
  if nd.key = "" then (.error (.missingArg "key"), fs)
  else
    match parent with
    | none =>
      match fs.root with
      | none =>
        let (nid, fs1) := fs.pushNode nd
        (.ok nid, { fs1 with root := some nid })
      | some _ => (.error .rootExists, fs)
    | some p =>
      let (nid, fs1) := fs.pushNode nd
      insertChild fs1 p nid

/-- The node record `initStructure` builds for one input record. -/
def initNodeOf (fs : VFS) (key : String) (type_ : Option String)
    (contents : Option IContents) (mime : Option String)
    (permissions : Option String) (modified : Option String) (uid : String) : VNode :=
  let isDir := type_ = some "dir"
  { key := key, parent := none, children := [],
    uid := uid,
    size := if isDir then 0 else
      (match contents with
       | some (.str s) => s.length
       | some (.arr l) => l.length
       | none => 0),
    mime := if isDir then "inode/directory" else orFalsy mime "text/plain",
    contents := if isDir then none else
      (match contents with
       | some (.str s) => some s
       | _ => none),
    type := some (orFalsy type_ "file"),
    permissions := orFalsy permissions (if isDir then "rwxr-xr-x" else "rw-r--r--"),
    modified := orFalsy modified fs.now,
    user := fs.user, group := fs.user, extra := [] }

mutual
/-- `initStructure(node, parent)`: build the property record (dropping every
input field outside the schema), insert, set the initial cwd, recurse into an
array-valued `contents` in document order. -/
def initStructure (fs : VFS) (r : IRec) (parent : Option Nat) : Except VErr Nat × VFS :=
  match r with
  | .mk key type_ contents mime perms modified _extra =>
    if key = "" then (.error (.missingArg "key"), fs)
    else
      let (uid, fs1) := fs.freshUid
      let nd := initNodeOf fs1 key type_ contents mime perms modified uid
      match treeInsertReady fs1 nd parent with
      | (.error e, fs2) => (.error e, fs2)
      | (.ok nid, fs2) =>
        let fs3 := if fs2.cwd = none ∧ parent = none then { fs2 with cwd := some nid } else fs2
        match contents with
        | some (.arr l) =>
          (match initList fs3 l nid with
           | (.error e, fs4) => (.error e, fs4)
           | (.ok _, fs4) => (.ok nid, fs4))
        | _ => (.ok nid, fs3)

/-- The `for (const childData of node.contents)` loop of `initStructure`;
a throw from a child aborts the loop, keeping earlier insertions. -/
def initList (fs : VFS) (l : IRecList) (parent : Nat) : Except VErr Unit × VFS :=
  match l with
  | .nil => (.ok (), fs)
  | .cons h t =>
    match initStructure fs h (some parent) with
    | (.error e, fs1) => (.error e, fs1)
    | (.ok _, fs1) => initList fs1 t parent
end

/-! ### `TreeStructure.fromJSON` / `VirtualFileSystem.fromJSON` -/

mutual
/-- Input record for `fromJSON`: an arbitrary field bag (the `key` field is
destructured out of it) plus the `children` array. -/
inductive JRec where
  | mk (fields : List (String × JVal)) (children : JRecList)
inductive JRecList where
  | nil
  | cons (h : JRec) (t : JRecList)
end

/-- `Object.assign(this, properties)` for one property: recognized engine
fields are routed to the corresponding record field, anything else sticks to
the node as an extra property. -/
def VNode.assign (n : VNode) (f : String) (v : JVal) : VNode :=
  if f = "type" then
    match v with
    | .str s => { n with type := some s }
    | _ => { n with type := none }
  else if f = "contents" then
    match v with
    | .str s => { n with contents := some s }
    | _ => { n with contents := none }
  else if f = "size" then
    match v with
    | .num k => { n with size := k.toNat }
    | _ => n
  else if f = "mime" then
    match v with
    | .str s => { n with mime := s }
    | _ => n
  else if f = "permissions" then
    match v with
    | .str s => { n with permissions := s }
    | _ => n
  else if f = "modified" then
    match v with
    | .str s => { n with modified := s }
    | _ => n
  else if f = "user" then
    match v with
    | .str s => { n with user := s }
    | _ => n
  else if f = "group" then
    match v with
    | .str s => { n with group := s }
    | _ => n
  else if f = "uid" then
    match v with
    | .str s => { n with uid := s }
    | _ => n
  else { n with extra := n.extra.filter (fun e => e.1 != f) ++ [(f, v)] }

def VNode.assignAll (n : VNode) (props : List (String × JVal)) : VNode :=
  props.foldl (fun m e => m.assign e.1 e.2) n

/-- `TreeStructure.insert(key, parent, properties)` with a raw property bag:
`new TreeNode(key, properties)` applies `Object.assign`. -/
def treeInsertNode (fs : VFS) (key : String) (props : List (String × JVal))
    (parent : Option Nat) : Except VErr Nat × VFS :=
  treeInsertReady fs (VNode.assignAll { key := key } props) parent

mutual
/-- `fromJSON`'s `insertNode`: `const { key, children, ...properties }` then
`tree.insert(key, parent, properties)` — note every field except `key` and
`children` is passed through into the node; then recurse into `children` in
document (pre-order) order. -/
def fromJSONNode (fs : VFS) (j : JRec) (parent : Option Nat) : Except VErr Nat × VFS :=
  match j with
  | .mk fields children =>
    let key := match (fields.find? (fun e => e.1 == "key")).map Prod.snd with
               | some (.str s) => s
               | _ => ""
    let props := fields.filter (fun e => e.1 != "key")
    match treeInsertNode fs key props parent with
    | (.error e, fs1) => (.error e, fs1)
    | (.ok nid, fs1) =>
      match fromJSONList fs1 children nid with
      | (.error e, fs2) => (.error e, fs2)
      | (.ok _, fs2) => (.ok nid, fs2)

def fromJSONList (fs : VFS) (l : JRecList) (parent : Nat) : Except VErr Unit × VFS :=
  match l with
  | .nil => (.ok (), fs)
  | .cons h t =>
    match fromJSONNode fs h (some parent) with
    | (.error e, fs1) => (.error e, fs1)
    | (.ok _, fs1) => fromJSONList fs1 t parent
end

/-- `VirtualFileSystem.fromJSON(json)`: rebuild the tree in a fresh
`TreeStructure`, set cwd to the new root, clear caches. -/
def VFS.fromJSON (fs : VFS) (j : JRec) : Except VErr Unit × VFS :=
  let base : VFS :=
    { nodes := [], root := none, cwd := none, pathCache := [],
      maxCacheSize := fs.maxCacheSize, uidCtr := fs.uidCtr, user := fs.user, now := fs.now }
  match fromJSONNode base j none with
  | (.error e, fs1) => (.error e, fs1)
  | (.ok _, fs1) => (.ok (), { fs1 with cwd := fs1.root, pathCache := [] })

/-! ### Pattern matching of `TreeNode.search` (tree.js)

The source matches a name against a pattern by
`new RegExp("^" + pattern.replace(/\./g, "\\.").replace(/\*/g, ".*") + "$").test(name)`
unless the pattern contains neither `*` nor `.`, in which case it compares
for string equality.  We model the JavaScript regular-expression subset that
such compiled patterns can fall into: literal characters, escaped
metacharacters, `.`, and the postfix quantifiers `*`, `+`, `?`.  Compiled
patterns whose residual characters use regex features outside this subset
(classes, groups, alternation, anchors, `\`-escapes) are out of the model and
map to `none`. -/

/-- A regex atom: a literal character or the `.` wildcard. -/
inductive RAtom where
  | lit (c : Char)
  | anyc
deriving DecidableEq, Repr

/-- A postfix quantifier on an atom. -/
inductive RQuant where
  | one
  | star
  | plus
  | opt
deriving DecidableEq, Repr

/-- A regex in the modelled subset: a sequence of quantified atoms, matched
against the whole string (the compiled pattern is anchored by `^`…`$`). -/
def Regex := List (RAtom × RQuant)

/-- The JavaScript regex metacharacters. -/
def isRegexMeta (c : Char) : Bool :=
  c == '\\' || c == '^' || c == '$' || c == '.' || c == '*' || c == '+' ||
  c == '?' || c == '(' || c == ')' || c == '[' || c == ']' || c == '{' ||
  c == '}' || c == '|'

inductive RTok where
  | atom (a : RAtom)
  | quant (q : RQuant)
deriving DecidableEq, Repr

/-- Lex the compiled pattern body into atoms and quantifiers.  A `\\`
followed by a metacharacter is that literal character; a bare metacharacter
is `.`/`*`/`+`/`?` or falls outside the modelled subset. -/
def lexRegex : List Char → Option (List RTok)
  | [] => some []
  | c :: rest =>
    if c = '\\' then
      match rest with
      | [] => none
      | c2 :: rest2 =>
        if isRegexMeta c2 then (lexRegex rest2).map (fun l => .atom (.lit c2) :: l)
        else none
    else
      let tk : Option RTok :=
        if c = '.' then some (.atom .anyc)
        else if c = '*' then some (.quant .star)
        else if c = '+' then some (.quant .plus)
        else if c = '?' then some (.quant .opt)
        else if isRegexMeta c then none
        else some (.atom (.lit c))
      match tk with
      | none => none
      | some t => (lexRegex rest).map (fun l => t :: l)

/-- Attach each quantifier to the atom before it; a quantifier with no
preceding atom is a syntax error, as in JavaScript. -/
def attachQuants : List RTok → Option Regex
  | [] => some []
  | .quant _ :: _ => none
  | .atom a :: .quant q :: rest => (attachQuants rest).map (fun r => (a, q) :: r)
  | .atom a :: rest => (attachQuants rest).map (fun r => (a, .one) :: r)

def parseRegex (l : List Char) : Option Regex :=
  (lexRegex l).bind attachQuants

/-- `pattern.replace(/\./g, "\\.")`. -/
def escapeDots : List Char → List Char
  | [] => []
  | c :: rest => (if c = '.' then ['\\', '.'] else [c]) ++ escapeDots rest

/-- `pattern.replace(/\*/g, ".*")` (applied after `escapeDots`). -/
def starToDotStar : List Char → List Char
  | [] => []
  | c :: rest => (if c = '*' then ['.', '*'] else [c]) ++ starToDotStar rest

/-- The body of the compiled regex (between the `^` and `$` anchors). -/
def compilePattern (p : String) : List Char :=
  starToDotStar (escapeDots p.data)

def amatch : RAtom → Char → Bool
  | .lit c, x => c == x
  | .anyc, _ => true

/-- Anchored regex matching, fuelled: every recursive call strictly decreases
`regex length + string length`, so fuel `r.length + s.length + 1` never runs
out (see `rmatch`). -/
def rmatchF : Nat → Regex → List Char → Bool
  | 0, _, _ => false
  | _ + 1, [], s => s.isEmpty
  | fuel + 1, (a, q) :: rs, s =>
    match q with
    | .one =>
      (match s with
       | [] => false
       | c :: s1 => amatch a c && rmatchF fuel rs s1)
    | .opt =>
      rmatchF fuel rs s ||
      (match s with
       | [] => false
       | c :: s1 => amatch a c && rmatchF fuel rs s1)
    | .star =>
      rmatchF fuel rs s ||
      (match s with
       | [] => false
       | c :: s1 => amatch a c && rmatchF fuel ((a, .star) :: rs) s1)
    | .plus =>
      (match s with
       | [] => false
       | c :: s1 => amatch a c && rmatchF fuel ((a, .star) :: rs) s1)

/-- Whole-string regex test (`regex.test(name)` on an anchored regex). -/
def rmatch (r : Regex) (s : List Char) : Bool :=
  rmatchF (r.length + s.length + 1) r s

/-- The name-matching step of `TreeNode.search(pattern)` for a single node
name: exact equality for patterns containing neither `*` nor `.`, otherwise
the compiled-regex test.  `none` when the compiled regex falls outside the
modelled subset. -/
def searchMatches (pattern name : String) : Option Bool :=
  if pattern.data.contains '*' = false ∧ pattern.data.contains '.' = false then
    some (name == pattern)
  else
    (parseRegex (compilePattern pattern)).map (fun r => rmatch r name.data)

/-- Modelled from the spec: glob matching where `*` matches zero or more
arbitrary characters and every other character, including `.`, matches itself
literally.  Fuelled exactly like `rmatchF`. -/
def globF : Nat → List Char → List Char → Bool
  | 0, _, _ => false
  | _ + 1, [], s => s.isEmpty
  | fuel + 1, p :: ps, s =>
    if p = '*' then
      globF fuel ps s ||
      (match s with
       | [] => false
       | _ :: s1 => globF fuel (p :: ps) s1)
    else
      match s with
      | [] => false
      | c :: s1 => p == c && globF fuel ps s1

def globMatch (p s : List Char) : Bool :=
  globF (p.length + s.length + 1) p s

/-- Modelled from the spec: the claimed pattern semantics — a literal pattern
(no `*` or `.`) matches by exact string equality, and any pattern containing
`*` or `.` matches with `*` as a wildcard and every other character literal. -/
def specMatches (pattern name : String) : Bool :=
  if pattern.data.contains '*' = false ∧ pattern.data.contains '.' = false then
    name == pattern
  else
    globMatch pattern.data name.data

/-! ### Concrete states used by the claim theorems -/

/-- The root directory node (the default structure's root key is `~`). -/
def rootNode : VNode :=
  { key := "~", parent := none, children := [], type := some "dir",
    contents := none, size := 0, mime := "inode/directory",
    permissions := "rwxr-xr-x", modified := "01/01/2026 00:00",
    user := "root", group := "root", uid := "UID-0", extra := [] }

/-- A freshly initialized filesystem holding only the root directory. -/
def rootFS : VFS :=
  { nodes := [rootNode], root := some 0, cwd := some 0 }

/-- The node `cat` builds for a missing file (uid from the deterministic
counter) and the filesystem state right after it has been pushed. -/
def catNewNode (fs1 : VFS) (fn : String) : VNode :=
  catNewFileNode { fs1 with uidCtr := fs1.uidCtr + 1 } fn ("UID-" ++ toString (fs1.uidCtr + 1))

def catFs3 (fs1 : VFS) (fn : String) : VFS :=
  { fs1 with uidCtr := fs1.uidCtr + 1, nodes := fs1.nodes ++ [catNewNode fs1 fn] }

def catFs4 (fs1 : VFS) (fn : String) (d : Nat) (dn : VNode) : VFS :=
  ((catFs3 fs1 fn).setNode d { dn with children := dn.children ++ [fs1.nodes.length] }).modifyNode
    fs1.nodes.length (fun n => { n with parent := some d })

/-- The file node as it stands after `cat`'s append-to-new-file write
(`ts` is the refreshed modification stamp, `getDate()` in the source). -/
def catDoneNode (fs1 : VFS) (fn c ts : String) (d : Nat) : VNode :=
  { catNewNode fs1 fn with
      parent := some d, contents := some ("" ++ c),
      size := ("" ++ c).utf8ByteSize, modified := ts }

/-- No node of the filesystem carries a property outside the fixed schema. -/
def noExtras (fs : VFS) : Prop :=
  ∀ n ∈ fs.nodes, n.extra = []

instance (fs : VFS) : Decidable (noExtras fs) :=
  inferInstanceAs (Decidable (∀ n ∈ fs.nodes, n.extra = []))

/-! ### Claim C7: compiled-pattern semantics versus the spec's glob semantics -/

/-- A pattern character that the claim's reading can survive: `*` and `.` are
handled by the compiler, and any other character must carry no regex meaning. -/
def safeChar (c : Char) : Bool :=
  c == '*' || c == '.' || !isRegexMeta c

/-- What the two `replace` passes emit for one pattern character. -/
def unitF (c : Char) : List Char :=
  if c = '.' then ['\\', '.'] else if c = '*' then ['.', '*'] else [c]

def compileChars (l : List Char) : List Char :=
  starToDotStar (escapeDots l)

/-- What the lexer should produce for one pattern character. -/
def lexUnit (c : Char) : List RTok :=
  if c = '.' then [.atom (.lit '.')]
  else if c = '*' then [.atom .anyc, .quant .star]
  else [.atom (.lit c)]

def lexedOf : List Char → List RTok
  | [] => []
  | c :: t => lexUnit c ++ lexedOf t

/-- The quantified atom the claim's semantics assigns to one pattern char. -/
def atomF (c : Char) : RAtom × RQuant :=
  if c = '*' then (.anyc, .star) else (.lit c, .one)

def regexOf : List Char → Regex
  | [] => []
  | c :: t => atomF c :: regexOf t

/-! ### Concrete states for the claim theorems and witnesses -/

/-- Directories `/a` and `/b` under the root. -/
def fsC1 : VFS := (mkdir (mkdir rootFS "/a").2 "/b").2

/-- `/a/x` and `/b/x`: moving `/a/x` into `/b` collides on the name `x`. -/
def fsC2 : VFS := (mkdir (mkdir rootFS "/a/x").2 "/b/x").2

/-- Empty `/b` plus `/bc`, with the current directory moved into `/bc`. -/
def fsC4 : VFS := (cd (mkdir (mkdir rootFS "/b").2 "/bc").2 "/bc").2

/-- A single directory `/b`. -/
def fsC5 : VFS := (mkdir rootFS "/b").2

/-- `/a` moved into `/b` (leaving the stale cache entry), then a fresh
directory created at `/a` via the relative path `a`. -/
def fsC8 : VFS := (mkdir (mv (mkdir (mkdir rootFS "/a").2 "/b").2 (.path "/a") (.path "/b")).2 "a").2

/-- Directory `/a` containing a child directory that shares its name `a`. -/
def fsC9 : VFS := (mkdir rootFS "/a/a").2

/-- Directory `/a` (id 1) containing a child `b` (id 2). -/
def fsC9w : VFS := (mkdir rootFS "/a/b").2

def anC9w : VNode := (fsC9w.getNode 1).getD { key := "" }

def pnC9w : VNode := (fsC9w.getNode 0).getD { key := "" }

/-- `/a/d`: the destination `d` (id 2) is a strict descendant of `a` (id 1). -/
def fsC3w : VFS := (mkdir rootFS "/a/d").2

def dnC3w : VNode := (fsC3w.getNode 2).getD { key := "" }

/-- A record with one unrecognized field. -/
def jC6 : JRec := .mk [("key", .str "r"), ("foo", .str "bar")] .nil

/-- An `initStructure` record with one unrecognized field. -/
def rC6 : IRec := .mk "home" (some "dir") none none none none [("secret", .str "x")]

/-- A single directory `/a` (id 1). -/
def fsA : VFS := (mkdir rootFS "/a").2

/-- `fsA` after resolving `/a` (so the resolution's cache write is applied). -/
def fsA1 : VFS := (resolvePath fsA "/a").2

def dnA : VNode := (fsA1.getNode 1).getD { key := "" }

/-! ### Arena access lemmas -/

theorem getNode_lt {fs : VFS} {i : Nat} {n : VNode} (h : fs.getNode i = some n) :
    i < fs.nodes.length := by
  simpa [VFS.getNode] using List.get?_eq_some.mp h |>.1

theorem nodes_setNode (fs : VFS) (i : Nat) (n : VNode) :
    (fs.setNode i n).nodes = fs.nodes.set i n := rfl

theorem getNode_setNode_self {fs : VFS} {i : Nat} (n : VNode)
    (h : i < fs.nodes.length) : (fs.setNode i n).getNode i = some n := by
  simp [VFS.getNode, VFS.setNode, List.getElem?_set_eq_of_lt _ h]

theorem getNode_setNode_ne {fs : VFS} {i j : Nat} (n : VNode) (h : i ≠ j) :
    (fs.setNode i n).getNode j = fs.getNode j := by
  simp [VFS.getNode, VFS.setNode, List.getElem?_set_ne h]

theorem modifyNode_eq_setNode {fs : VFS} {i : Nat} {m : VNode} (f : VNode → VNode)
    (h : fs.getNode i = some m) : fs.modifyNode i f = fs.setNode i (f m) := by
  simp [VFS.modifyNode, VFS.setNode, VFS.getNode] at h ⊢
  rw [h]

theorem getNode_modifyNode_self {fs : VFS} {i : Nat} {m : VNode} (f : VNode → VNode)
    (h : fs.getNode i = some m) : (fs.modifyNode i f).getNode i = some (f m) := by
  rw [modifyNode_eq_setNode f h]
  exact getNode_setNode_self _ (getNode_lt h)

theorem getNode_modifyNode_ne {fs : VFS} {i j : Nat} (f : VNode → VNode) (h : i ≠ j) :
    (fs.modifyNode i f).getNode j = fs.getNode j := by
  unfold VFS.modifyNode
  cases fs.nodes.get? i with
  | none => rfl
  | some m => simp [VFS.getNode, List.getElem?_set_ne h]

/-- `insertChild` success: the new child id is returned, and the state is the
parent-children push followed by the child-parent update. -/
theorem insertChild_ok {fs : VFS} {p c r : Nat} {fs' : VFS}
    (h : insertChild fs p c = (.ok r, fs')) :
    r = c ∧ ∃ pn cn, fs.getNode p = some pn ∧ fs.getNode c = some cn
      ∧ hasChildKey fs p cn.key = false
      ∧ fs' = (fs.setNode p { pn with children := pn.children ++ [c] }).modifyNode c
          (fun n => { n with parent := some p }) := by
  unfold insertChild at h
  split at h
  next pn cn hp hc =>
    split at h
    next hdup => simp at h
    next hdup =>
      have h1 := congrArg Prod.fst h
      have h2 := congrArg Prod.snd h
      simp only [Except.ok.injEq] at h1
      exact ⟨h1.symm, pn, cn, hp, hc, Bool.eq_false_iff.mpr hdup, h2.symm⟩
  next => simp at h

/-- `deleteChild` for distinct parent and child either erases the child and
clears its parent reference, or (when not contained) does nothing. -/
theorem deleteChild_char {fs : VFS} {p c : Nat} {pn : VNode}
    (hp : fs.getNode p = some pn) :
    (deleteChild fs p c).2 =
      if pn.children.contains c then
        (fs.setNode p { pn with children := pn.children.erase c }).modifyNode c
          (fun n => { n with parent := none })
      else fs := by
  simp only [deleteChild, hp]
  split <;> rfl

/-- A `deleteChild` call on a distinct parent keeps the child's node (only its
parent reference may be cleared): children and key are untouched. -/
theorem deleteChild_keeps_child {fs : VFS} {p a : Nat} {sn : VNode}
    (ha : fs.getNode a = some sn) (hne : p ≠ a) :
    ∃ sn3, (deleteChild fs p a).2.getNode a = some sn3
      ∧ sn3.children = sn.children ∧ sn3.key = sn.key := by
  cases hp : fs.getNode p with
  | none =>
    unfold deleteChild
    rw [hp]
    exact ⟨sn, ha, rfl, rfl⟩
  | some pn =>
    rw [deleteChild_char hp]
    split
    · have hg : ((fs.setNode p { pn with children := pn.children.erase a }).getNode a) = some sn := by
        rw [getNode_setNode_ne _ hne]; exact ha
      rw [getNode_modifyNode_self _ hg]
      exact ⟨_, rfl, rfl, rfl⟩
    · exact ⟨sn, ha, rfl, rfl⟩

/-- What a successful `insertChild` guarantees about the final state. -/
theorem insert_final {fs3 : VFS} {d a r : Nat} {fs' : VFS} {sn3 : VNode}
    (ha3 : fs3.getNode a = some sn3)
    (h : insertChild fs3 d a = (.ok r, fs')) :
    r = a
    ∧ (fs'.getNode a).bind VNode.parent = some d
    ∧ (∃ an', fs'.getNode a = some an' ∧ ∀ c ∈ sn3.children, c ∈ an'.children)
    ∧ (∃ dn', fs'.getNode d = some dn' ∧ a ∈ dn'.children) := by
  obtain ⟨hr, pn, cn, hp3, hc3, _hdup, hst⟩ := insertChild_ok h
  subst hst
  refine ⟨hr, ?_⟩
  by_cases hda : d = a
  · rw [hda] at hp3 ⊢
    have hpn : pn = sn3 := Option.some.inj (hp3.symm.trans ha3)
    rw [hpn]
    have hg : ((fs3.setNode a { sn3 with children := sn3.children ++ [a] }).getNode a)
        = some { sn3 with children := sn3.children ++ [a] } :=
      getNode_setNode_self _ (getNode_lt ha3)
    rw [getNode_modifyNode_self _ hg]
    exact ⟨rfl, ⟨_, rfl, fun c hc => List.mem_append_left _ hc⟩,
      ⟨_, rfl, List.mem_append_right _ (List.mem_singleton.mpr rfl)⟩⟩
  · have hg : ((fs3.setNode d { pn with children := pn.children ++ [a] }).getNode a)
        = some sn3 := by
      rw [getNode_setNode_ne _ hda]; exact ha3
    have hgd : ((fs3.setNode d { pn with children := pn.children ++ [a] }).getNode d)
        = some { pn with children := pn.children ++ [a] } :=
      getNode_setNode_self _ (getNode_lt hp3)
    refine ⟨?_, ?_, ?_⟩
    · rw [getNode_modifyNode_self _ hg]; rfl
    · rw [getNode_modifyNode_self _ hg]
      exact ⟨_, rfl, fun c hc => hc⟩
    · rw [getNode_modifyNode_ne _ (Ne.symm hda), hgd]
      exact ⟨_, rfl, List.mem_append_right _ (List.mem_singleton.mpr rfl)⟩

/-- `mvNodes` unfolded past the argument checks and node-reference
resolution (which are definitional for direct node references). -/
theorem mvNodes_unfold (fs : VFS) (a d : Nat) :
    mvNodes fs a d =
      match fs.getNode d with
      | none => (.error .invalidNode, fs)
      | some dn =>
        if dn.type ≠ some "dir" then (.error .destNotDirectory, fs)
        else if isAncestorOfB fs a d then (.error .cyclicMove, fs)
        else
          match fs.getNode a with
          | none => (.error .invalidNode, fs)
          | some sn =>
            insertChild (match sn.parent with
                         | some p => (deleteChild fs p a).2
                         | none => fs) d a := rfl

/-- Claim C3: for a directory destination `d` that is a strict descendant of
`a` (i.e. `a` is on `d`'s strict ancestor chain), `mv` fails with `CyclicMove`
and leaves the state untouched; and every successful `mv` returns the very
node it was given (identity preserved), re-parents it under `d`, keeps all of
its children, and makes it a child of `d`.  The success part assumes the node
is not its own parent (true of every tree-shaped state). -/
theorem c3_mv_cyclic_guard_and_identity (fs : VFS) (a d : Nat) (dn : VNode)
    (hd : fs.getNode d = some dn) (hdir : dn.type = some "dir") :
    (isAncestorOfB fs a d = true → mvNodes fs a d = (.error .cyclicMove, fs))
    ∧ (∀ r fs', mvNodes fs a d = (.ok r, fs') →
        (fs.getNode a).bind VNode.parent ≠ some a →
        r = a
        ∧ (fs'.getNode a).bind VNode.parent = some d
        ∧ (∃ an an', fs.getNode a = some an ∧ fs'.getNode a = some an'
            ∧ ∀ c ∈ an.children, c ∈ an'.children)
        ∧ (∃ dn', fs'.getNode d = some dn' ∧ a ∈ dn'.children)) := by
  constructor
  · intro hanc
    simp [mvNodes_unfold, hd, hdir, hanc]
  · intro r fs' heq hpar
    cases hanc : isAncestorOfB fs a d with
    | true =>
      have hred : mvNodes fs a d = (.error .cyclicMove, fs) := by
        simp [mvNodes_unfold, hd, hdir, hanc]
      rw [hred] at heq
      simp at heq
    | false =>
    cases ha : fs.getNode a with
    | none =>
      have hred : mvNodes fs a d = (.error .invalidNode, fs) := by
        simp [mvNodes_unfold, hd, hdir, hanc, ha]
      rw [hred] at heq
      simp at heq
    | some sn =>
    have hred : mvNodes fs a d =
        insertChild (match sn.parent with
                     | some p => (deleteChild fs p a).2
                     | none => fs) d a := by
      simp [mvNodes_unfold, hd, hdir, hanc, ha]
    rw [hred] at heq
    cases hsp : sn.parent with
    | none =>
      rw [hsp] at heq
      have heq2 : insertChild fs d a = (.ok r, fs') := heq
      obtain ⟨h1, h2, ⟨an', h3, h4⟩, h5⟩ := insert_final ha heq2
      exact ⟨h1, h2, ⟨sn, an', rfl, h3, h4⟩, h5⟩
    | some p =>
      rw [hsp] at heq
      have heq2 : insertChild (deleteChild fs p a).2 d a = (.ok r, fs') := heq
      have hpa : p ≠ a := by
        intro hcon
        apply hpar
        rw [ha]
        show sn.parent = some a
        rw [hsp, hcon]
      obtain ⟨sn3, ha3, hch, _⟩ := deleteChild_keeps_child ha hpa
      obtain ⟨h1, h2, ⟨an', h3, h4⟩, h5⟩ := insert_final ha3 heq2
      exact ⟨h1, h2, ⟨sn, an', rfl, h3, fun c hc => h4 c (hch ▸ hc)⟩, h5⟩

theorem findq_congr {α : Type} : ∀ {l : List α} {f g : α → Bool},
    (∀ x ∈ l, f x = g x) → l.find? f = l.find? g
  | [], _, _, _ => rfl
  | x :: xs, f, g, h => by
    simp only [List.find?]
    rw [h x (List.mem_cons_self x xs)]
    cases g x with
    | true => rfl
    | false => exact findq_congr (fun y hy => h y (List.mem_cons_of_mem _ hy))

/-- `deleteChild` never changes any node's key. -/
theorem deleteChild_keeps_keys {fs : VFS} {p c : Nat} (hpc : p ≠ c) (j : Nat) :
    ((deleteChild fs p c).2.getNode j).map VNode.key = (fs.getNode j).map VNode.key := by
  cases hp : fs.getNode p with
  | none => unfold deleteChild; rw [hp]
  | some pn =>
    rw [deleteChild_char hp]
    split
    · by_cases hjc : c = j
      · subst hjc
        have hs : ((fs.setNode p { pn with children := pn.children.erase c }).getNode c)
            = fs.getNode c := getNode_setNode_ne _ hpc
        cases hc : fs.getNode c with
        | none =>
          rw [hc] at hs
          have hm : (VFS.modifyNode (fs.setNode p { pn with children := pn.children.erase c }) c
              (fun n => { n with parent := none })).getNode c = none := by
            unfold VFS.modifyNode
            rw [show ((fs.setNode p { pn with children := pn.children.erase c }).nodes.get? c)
                = none from hs]
            exact hs
          rw [hm]
        | some m =>
          rw [hc] at hs
          rw [getNode_modifyNode_self _ hs]
          rfl
      · rw [getNode_modifyNode_ne _ hjc]
        by_cases hjp : p = j
        · subst hjp
          rw [getNode_setNode_self _ (getNode_lt hp), hp]
          rfl
        · rw [getNode_setNode_ne _ hjp]
    · rfl

/-- `deleteChild` never changes any node's children except the parent's. -/
theorem deleteChild_parent_children {fs : VFS} {p c : Nat} {pn : VNode}
    (hp : fs.getNode p = some pn) (hpc : p ≠ c) :
    ((deleteChild fs p c).2.getNode p).map VNode.children = some (pn.children.erase c) := by
  rw [deleteChild_char hp]
  split
  · rw [getNode_modifyNode_ne _ (Ne.symm hpc), getNode_setNode_self _ (getNode_lt hp)]
    rfl
  next hnc =>
    rw [hp]
    have hmem : c ∉ pn.children := by simpa using hnc
    rw [List.erase_of_not_mem hmem]
    rfl

/-- `hasChildKey` only depends on the parent's child list and on node keys. -/
theorem hasChildKey_congr {fs fs2 : VFS} {i : Nat} {k : String}
    (hch : (fs2.getNode i).map VNode.children = (fs.getNode i).map VNode.children)
    (hkeys : ∀ j, (fs2.getNode j).map VNode.key = (fs.getNode j).map VNode.key) :
    hasChildKey fs2 i k = hasChildKey fs i k := by
  unfold hasChildKey findChildId
  cases h1 : fs.getNode i with
  | none =>
    cases h2 : fs2.getNode i with
    | none => rfl
    | some n2 => rw [h1, h2] at hch; simp at hch
  | some n1 =>
    cases h2 : fs2.getNode i with
    | none => rw [h1, h2] at hch; simp at hch
    | some n2 =>
      have hch2 : n2.children = n1.children := by
        rw [h1, h2] at hch
        simpa using hch
      show (List.find? (fun j => Option.map VNode.key (fs2.getNode j) == some k) n2.children).isSome
          = (List.find? (fun j => Option.map VNode.key (fs.getNode j) == some k) n1.children).isSome
      rw [hch2]
      rw [findq_congr (fun j _ => by rw [hkeys j])]

/-- A duplicate-free `insertChild` computes to its success state. -/
theorem insertChild_no_dup {fs : VFS} {p c : Nat} {pn cn : VNode}
    (hp : fs.getNode p = some pn) (hc : fs.getNode c = some cn)
    (hdup : hasChildKey fs p cn.key = false) :
    insertChild fs p c = (.ok c,
      (fs.setNode p { pn with children := pn.children ++ [c] }).modifyNode c
        (fun n => { n with parent := some p })) := by
  simp [insertChild, hp, hc, hdup]

/-- Claim C9 (amended): moving a non-root directory into itself passes the
strict ancestor check and — provided the directory has no child bearing its
own name — succeeds, detaching it from its former parent and inserting it as
a child of itself: afterwards its parent reference points to itself, it lists
itself among its children, and it is gone from the former parent's children,
so its subtree is disconnected from the root.  (When a child with the same
name exists, the insert instead fails with `DuplicateName`, shown by the
counterexample theorem.) -/
theorem c9_self_move_orphans_subtree (fs : VFS) (a p : Nat) (an pn : VNode)
    (ha : fs.getNode a = some an) (htype : an.type = some "dir")
    (hpar : an.parent = some p) (hpa : p ≠ a)
    (hp : fs.getNode p = some pn)
    (hanc : isAncestorOfB fs a a = false)
    (hnodup : hasChildKey fs a an.key = false) :
    ∃ fs', mvNodes fs a a = (.ok a, fs')
      ∧ (fs'.getNode a).bind VNode.parent = some a
      ∧ (∃ an', fs'.getNode a = some an' ∧ a ∈ an'.children
          ∧ ∀ c ∈ an.children, c ∈ an'.children)
      ∧ (fs'.getNode p).map VNode.children = some (pn.children.erase a) := by
  have hred : mvNodes fs a a = insertChild (deleteChild fs p a).2 a a := by
    simp [mvNodes_unfold, ha, htype, hanc, hpar]
  obtain ⟨sn3, ha3, hch, hkey⟩ := deleteChild_keeps_child ha hpa
  have hchp : ((deleteChild fs p a).2.getNode a).map VNode.children
      = (fs.getNode a).map VNode.children := by
    rw [ha3, ha]
    simp [hch]
  have hdup : hasChildKey (deleteChild fs p a).2 a sn3.key = false := by
    rw [hasChildKey_congr hchp (deleteChild_keeps_keys hpa), hkey]
    exact hnodup
  have hins := insertChild_no_dup ha3 ha3 hdup
  have hga : (((deleteChild fs p a).2.setNode a
      { sn3 with children := sn3.children ++ [a] }).getNode a)
      = some { sn3 with children := sn3.children ++ [a] } :=
    getNode_setNode_self _ (getNode_lt ha3)
  refine ⟨_, by rw [hred, hins], ?_, ?_, ?_⟩
  · rw [getNode_modifyNode_self _ hga]
    rfl
  · rw [getNode_modifyNode_self _ hga]
    refine ⟨_, rfl, List.mem_append_right _ (List.mem_singleton.mpr rfl), ?_⟩
    intro c hc
    exact List.mem_append_left _ (hch ▸ hc)
  · rw [getNode_modifyNode_ne _ (Ne.symm hpa), getNode_setNode_ne _ (Ne.symm hpa)]
    exact deleteChild_parent_children hp hpa

theorem getNode_append_of_lt {fs2 fs1 : VFS} {m : VNode} (hn : fs2.nodes = fs1.nodes ++ [m])
    {i : Nat} {n : VNode} (h : fs1.getNode i = some n) : fs2.getNode i = some n := by
  show fs2.nodes.get? i = some n
  rw [hn, List.get?_append (getNode_lt h)]
  exact h

theorem getNode_append_last {fs2 fs1 : VFS} {m : VNode} (hn : fs2.nodes = fs1.nodes ++ [m]) :
    fs2.getNode fs1.nodes.length = some m := by
  show fs2.nodes.get? fs1.nodes.length = some m
  rw [hn]
  exact List.get?_concat_length _ _

theorem str_nil_append (s : String) : "" ++ s = s := rfl

/-- The write branch of `cat` on a missing file: a fresh file node is created,
inserted under the resolved parent, and filled with exactly the given
contents (append to the initial empty string), its size the UTF-8 byte
length. -/
theorem catAfter_create (path c : String) {fs1 : VFS} {fn : String} {d : Nat} {dn : VNode}
    (hd : fs1.getNode d = some dn)
    (hrange : ∀ i ∈ dn.children, i < fs1.nodes.length)
    (hmiss : findChildId fs1 d fn = none) :
    ∃ fs' n', catAfter fs1 ">>" path c fn d = (.ok none, fs')
      ∧ fs'.getNode fs1.nodes.length = some n'
      ∧ n'.key = fn ∧ n'.type = some "file" ∧ n'.contents = some c
      ∧ n'.size = c.utf8ByteSize ∧ n'.parent = some d
      ∧ (fs'.getNode d).map VNode.children = some (dn.children ++ [fs1.nodes.length]) := by
  have h3d : (catFs3 fs1 fn).getNode d = some dn := getNode_append_of_lt rfl hd
  have h3nid : (catFs3 fs1 fn).getNode fs1.nodes.length = some (catNewNode fs1 fn) :=
    getNode_append_last rfl
  have hdne : d ≠ fs1.nodes.length := Nat.ne_of_lt (getNode_lt hd)
  have hmiss1 : dn.children.find? (fun i => ((fs1.getNode i).map VNode.key) == some fn)
      = none := by
    have h0 : findChildId fs1 d fn = none := hmiss
    unfold findChildId at h0
    rw [hd] at h0
    exact h0
  have hkeys3 : ∀ i ∈ dn.children, (catFs3 fs1 fn).getNode i = fs1.getNode i := by
    intro i hi
    show (catFs3 fs1 fn).nodes.get? i = fs1.nodes.get? i
    rw [show (catFs3 fs1 fn).nodes = fs1.nodes ++ [catNewNode fs1 fn] from rfl,
      List.get?_append (hrange i hi)]
  have hmiss3 : findChildId (catFs3 fs1 fn) d fn = none := by
    unfold findChildId
    rw [h3d]
    show dn.children.find? (fun i => (((catFs3 fs1 fn).getNode i).map VNode.key) == some fn)
        = none
    rw [findq_congr (fun i hi => by rw [hkeys3 i hi])]
    exact hmiss1
  have hdup3 : hasChildKey (catFs3 fs1 fn) d (catNewNode fs1 fn).key = false := by
    show (findChildId (catFs3 fs1 fn) d (catNewNode fs1 fn).key).isSome = false
    rw [show (catNewNode fs1 fn).key = fn from rfl, hmiss3]
    rfl
  have hins : insertChild (catFs3 fs1 fn) d fs1.nodes.length
      = (.ok fs1.nodes.length, catFs4 fs1 fn d dn) :=
    insertChild_no_dup h3d h3nid hdup3
  have h4s : ((catFs3 fs1 fn).setNode d
      { dn with children := dn.children ++ [fs1.nodes.length] }).getNode fs1.nodes.length
      = some (catNewNode fs1 fn) := by
    rw [getNode_setNode_ne _ hdne]
    exact h3nid
  have h4nid : (catFs4 fs1 fn d dn).getNode fs1.nodes.length
      = some { catNewNode fs1 fn with parent := some d } := by
    unfold catFs4
    rw [getNode_modifyNode_self _ h4s]
  have h4d : (catFs4 fs1 fn d dn).getNode d
      = some { dn with children := dn.children ++ [fs1.nodes.length] } := by
    unfold catFs4
    rw [getNode_modifyNode_ne _ (Ne.symm hdne)]
    exact getNode_setNode_self _ (getNode_lt h3d)
  have hw : catWrite (catFs4 fs1 fn d dn) ">>" path c fs1.nodes.length
      = (.ok none, invalidatePathCache ((catFs4 fs1 fn d dn).setNode fs1.nodes.length
          (catDoneNode fs1 fn c ((catFs4 fs1 fn d dn).now) d)) path) := by
    unfold catWrite
    rw [h4nid]
    rfl
  refine ⟨invalidatePathCache ((catFs4 fs1 fn d dn).setNode fs1.nodes.length
      (catDoneNode fs1 fn c ((catFs4 fs1 fn d dn).now) d)) path,
    catDoneNode fs1 fn c ((catFs4 fs1 fn d dn).now) d, ?_, ?_, rfl, rfl, ?_, ?_, rfl, ?_⟩
  · unfold catAfter
    rw [hmiss]
    show (match insertChild (catFs3 fs1 fn) d fs1.nodes.length with
          | (.error e, fs4) => ((.error e : Except VErr (Option String)), fs4)
          | (.ok _, fs4) => catWrite fs4 ">>" path c fs1.nodes.length)
        = (.ok none, _)
    rw [hins]
    exact hw
  · exact getNode_setNode_self _ (getNode_lt h4nid)
  · show some ("" ++ c) = some c
    rw [str_nil_append]
  · show ("" ++ c).utf8ByteSize = c.utf8ByteSize
    rw [str_nil_append]
  · show (((catFs4 fs1 fn d dn).setNode fs1.nodes.length _).getNode d).map VNode.children
        = some (dn.children ++ [fs1.nodes.length])
    rw [getNode_setNode_ne _ (Ne.symm hdne), h4d]
    rfl

/-- Claim C10: for a path whose parent directory resolves but whose last
segment names no existing entry, an append-mode write (`cat(">>", p, c)`)
does not fail: it creates a new file node at that path whose contents are
exactly `c` and whose size is the UTF-8 byte length of `c` — append on a
missing file behaves as creation. -/
theorem c10_append_creates_file (fs fs1 : VFS) (p pp fn c : String) (d : Nat) (dn : VNode)
    (hpne : p ≠ "")
    (hsplit : catSplit p = (pp, fn))
    (hres : resolvePath fs pp = (.ok d, fs1))
    (hd : fs1.getNode d = some dn)
    (_hdir : dn.type = some "dir")
    (hrange : ∀ i ∈ dn.children, i < fs1.nodes.length)
    (hmiss : findChildId fs1 d fn = none) :
    ∃ fs' n', cat fs ">>" p c = (.ok none, fs')
      ∧ fs'.getNode fs1.nodes.length = some n'
      ∧ n'.key = fn ∧ n'.type = some "file" ∧ n'.contents = some c
      ∧ n'.size = c.utf8ByteSize ∧ n'.parent = some d
      ∧ (fs'.getNode d).map VNode.children = some (dn.children ++ [fs1.nodes.length]) := by
  obtain ⟨fs', n', h1, h2, h3, h4, h5, h6, h7, h8⟩ := catAfter_create p c hd hrange hmiss
  refine ⟨fs', n', ?_, h2, h3, h4, h5, h6, h7, h8⟩
  have hpp : (catSplit p).1 = pp := by rw [hsplit]
  have hfn2 : (catSplit p).2 = fn := by rw [hsplit]
  have hcat : cat fs ">>" p c = catAfter fs1 ">>" p c fn d := by
    unfold cat
    rw [if_neg hpne, hpp, hfn2, hres]
  rw [hcat, h1]

theorem noExtras_setNode {fs : VFS} {i : Nat} {n : VNode}
    (h : noExtras fs) (hn : n.extra = []) : noExtras (fs.setNode i n) := by
  intro m hm
  rcases List.mem_or_eq_of_mem_set hm with h1 | h2
  · exact h m h1
  · subst h2
    exact hn

theorem noExtras_modifyNode {fs : VFS} {i : Nat} {f : VNode → VNode}
    (h : noExtras fs) (hf : ∀ n, (f n).extra = n.extra) : noExtras (fs.modifyNode i f) := by
  unfold VFS.modifyNode
  cases hg : fs.nodes.get? i with
  | none => exact h
  | some n => exact noExtras_setNode h (by rw [hf]; exact h n (List.get?_mem hg))

theorem noExtras_insertChild {fs : VFS} {p c : Nat}
    (h : noExtras fs) : noExtras (insertChild fs p c).2 := by
  unfold insertChild
  split
  next pn cn hp hc =>
    split
    · exact h
    · exact noExtras_modifyNode
        (noExtras_setNode h (h pn (List.get?_mem hp))) (fun n => rfl)
  next => exact h

theorem noExtras_push {fs : VFS} {nd : VNode}
    (h : noExtras fs) (hnd : nd.extra = []) :
    noExtras ({ fs with nodes := fs.nodes ++ [nd] } : VFS) := by
  intro m hm
  rcases List.mem_append.mp hm with h1 | h2
  · exact h m h1
  · rw [List.mem_singleton.mp h2]
    exact hnd

theorem treeInsertReady_noExtras {fs : VFS} {nd : VNode} {parent : Option Nat}
    (h : noExtras fs) (hnd : nd.extra = []) :
    noExtras (treeInsertReady fs nd parent).2 := by
  unfold treeInsertReady
  split
  · exact h
  · split
    · split
      · exact noExtras_push h hnd
      · exact h
    · exact noExtras_insertChild (noExtras_push h hnd)

mutual
/-- Claim C6 (amended, `initStructure` half): every input field outside the
declared schema is dropped by `initStructure` — starting from a filesystem
whose nodes carry no extra properties, the filesystem after `initStructure`
(whether it succeeded or threw midway) still carries none, for every input
record. -/
theorem initStructure_noExtras (fs : VFS) (r : IRec) (parent : Option Nat)
    (h : noExtras fs) : noExtras (initStructure fs r parent).2 := by
  match r with
  | .mk key type_ contents mime perms modified extra =>
    by_cases hk : key = ""
    · have hstep : initStructure fs (IRec.mk key type_ contents mime perms modified extra)
          parent = (.error (.missingArg "key"), fs) := by
        unfold initStructure
        rw [if_pos hk]
      rw [hstep]
      exact h
    · cases contents with
      | none =>
        unfold initStructure
        rw [if_neg hk]
        dsimp only
        split
        next e fs2 hins =>
          have h2 := @treeInsertReady_noExtras fs.freshUid.2
            (initNodeOf fs.freshUid.2 key type_ none mime perms modified
              fs.freshUid.1) parent h rfl
          rw [hins] at h2
          exact h2
        next nid fs2 hins =>
          have h2 := @treeInsertReady_noExtras fs.freshUid.2
            (initNodeOf fs.freshUid.2 key type_ none mime perms modified
              fs.freshUid.1) parent h rfl
          rw [hins] at h2
          split
          · exact h2
          · exact h2
      | some cv =>
        cases cv with
        | str str0 =>
          unfold initStructure
          rw [if_neg hk]
          dsimp only
          split
          next e fs2 hins =>
            have h2 := @treeInsertReady_noExtras fs.freshUid.2
              (initNodeOf fs.freshUid.2 key type_ (some (.str str0))
                mime perms modified fs.freshUid.1) parent h rfl
            rw [hins] at h2
            exact h2
          next nid fs2 hins =>
            have h2 := @treeInsertReady_noExtras fs.freshUid.2
              (initNodeOf fs.freshUid.2 key type_ (some (.str str0))
                mime perms modified fs.freshUid.1) parent h rfl
            rw [hins] at h2
            split
            · exact h2
            · exact h2
        | arr l =>
          unfold initStructure
          rw [if_neg hk]
          dsimp only
          split
          next e fs2 hins =>
            have h2 := @treeInsertReady_noExtras fs.freshUid.2
              (initNodeOf fs.freshUid.2 key type_ (some (.arr l))
                mime perms modified fs.freshUid.1) parent h rfl
            rw [hins] at h2
            exact h2
          next nid fs2 hins =>
            have h2 := @treeInsertReady_noExtras fs.freshUid.2
              (initNodeOf fs.freshUid.2 key type_ (some (.arr l))
                mime perms modified fs.freshUid.1) parent h rfl
            rw [hins] at h2
            have h3 : noExtras (if fs2.cwd = none ∧ parent = none
                then { fs2 with cwd := some nid } else fs2) := by
              split
              · exact h2
              · exact h2
            split
            next e fs4 hl =>
              have h4 := initList_noExtras _ l nid h3
              rw [hl] at h4
              exact h4
            next fs4 hl =>
              have h4 := initList_noExtras _ l nid h3
              rw [hl] at h4
              exact h4

theorem initList_noExtras (fs : VFS) (l : IRecList) (parent : Nat)
    (h : noExtras fs) : noExtras (initList fs l parent).2 := by
  match l with
  | .nil => exact h
  | .cons hd tl =>
    unfold initList
    split
    next e fs1 hi =>
      have h1 := initStructure_noExtras fs hd (some parent) h
      rw [hi] at h1
      exact h1
    next fs1 hi =>
      have h1 := initStructure_noExtras fs hd (some parent) h
      rw [hi] at h1
      exact initList_noExtras fs1 tl parent h1
end

theorem star_append (a b : List Char) :
    starToDotStar (a ++ b) = starToDotStar a ++ starToDotStar b := by
  induction a with
  | nil => rfl
  | cons c t ih => simp [starToDotStar, ih]

theorem compileChars_cons (c : Char) (l : List Char) :
    compileChars (c :: l) = unitF c ++ compileChars l := by
  unfold compileChars unitF
  by_cases hd : c = '.'
  · subst hd
    simp [escapeDots, star_append, starToDotStar]
  · by_cases hs : c = '*'
    · subst hs
      simp [escapeDots, star_append, starToDotStar]
    · simp [escapeDots, star_append, starToDotStar, hd, hs]

theorem not_meta_chars {c : Char} (h : isRegexMeta c = false) :
    c ≠ '.' ∧ c ≠ '*' ∧ c ≠ '+' ∧ c ≠ '?' ∧ c ≠ '\\' := by
  refine ⟨?_, ?_, ?_, ?_, ?_⟩ <;> intro hc <;> subst hc <;> exact absurd h (by decide)

theorem lex_compile : ∀ l : List Char, (∀ c ∈ l, safeChar c = true) →
    lexRegex (compileChars l) = some (lexedOf l)
  | [], _ => rfl
  | c :: t, hsafe => by
    have ih := lex_compile t (fun x hx => hsafe x (List.mem_cons_of_mem _ hx))
    rw [compileChars_cons]
    by_cases hd : c = '.'
    · subst hd
      show lexRegex ('\\' :: '.' :: compileChars t) = some (lexedOf ('.' :: t))
      show (lexRegex (compileChars t)).map (fun l => .atom (.lit '.') :: l)
          = some (.atom (.lit '.') :: lexedOf t)
      rw [ih]
      rfl
    · by_cases hs : c = '*'
      · subst hs
        show lexRegex ('.' :: '*' :: compileChars t) = some (lexedOf ('*' :: t))
        have hinner : lexRegex ('*' :: compileChars t) = some (.quant .star :: lexedOf t) := by
          rw [lexRegex.eq_def]
          dsimp only
          rw [if_neg (show ('*' : Char) ≠ '\\' from by decide),
            if_neg (show ('*' : Char) ≠ '.' from by decide), if_pos rfl, ih]
          rfl
        rw [lexRegex.eq_def]
        dsimp only
        rw [if_neg (show ('.' : Char) ≠ '\\' from by decide), if_pos rfl, hinner]
        rfl
      · have hmeta : isRegexMeta c = false := by
          have hone := hsafe c (List.mem_cons_self c t)
          unfold safeChar at hone
          simp [hd, hs] at hone
          simpa using hone
        obtain ⟨h1, h2, h3, h4, h5⟩ := not_meta_chars hmeta
        rw [show unitF c = [c] from by unfold unitF; simp [hd, hs]]
        rw [show lexedOf (c :: t) = .atom (.lit c) :: lexedOf t from by
          show lexUnit c ++ lexedOf t = _
          unfold lexUnit
          simp [hd, hs]]
        show lexRegex (c :: compileChars t) = some (.atom (.lit c) :: lexedOf t)
        rw [lexRegex.eq_def]
        dsimp only
        rw [if_neg h5, if_neg hd, if_neg hs, if_neg h3, if_neg h4]
        simp only [hmeta, Bool.false_eq_true, if_false]
        rw [ih]
        rfl

theorem attach_cons (a : RAtom) (rest : List RTok)
    (h : rest = [] ∨ ∃ a2 r2, rest = .atom a2 :: r2) :
    attachQuants (.atom a :: rest) = (attachQuants rest).map (fun r => (a, .one) :: r) := by
  rcases h with h | ⟨a2, r2, h⟩ <;> rw [h] <;> rfl

theorem lexedOf_head (t : List Char) :
    lexedOf t = [] ∨ ∃ a2 r2, lexedOf t = .atom a2 :: r2 := by
  cases t with
  | nil => exact Or.inl rfl
  | cons c t2 =>
    right
    show ∃ a2 r2, lexUnit c ++ lexedOf t2 = .atom a2 :: r2
    by_cases hd : c = '.'
    · subst hd
      exact ⟨.lit '.', lexedOf t2, rfl⟩
    · by_cases hs : c = '*'
      · subst hs
        exact ⟨.anyc, .quant .star :: lexedOf t2, rfl⟩
      · refine ⟨.lit c, lexedOf t2, ?_⟩
        unfold lexUnit
        rw [if_neg hd, if_neg hs]
        rfl

theorem attach_lexed : ∀ l : List Char,
    attachQuants (lexedOf l) = some (regexOf l)
  | [] => rfl
  | c :: t => by
    have ih := attach_lexed t
    by_cases hs : c = '*'
    · subst hs
      show attachQuants (.atom .anyc :: .quant .star :: lexedOf t) = _
      show (attachQuants (lexedOf t)).map (fun r => (RAtom.anyc, RQuant.star) :: r) = _
      rw [ih]
      rw [show regexOf ('*' :: t) = (RAtom.anyc, RQuant.star) :: regexOf t from rfl]
      rfl
    · have hunit : lexUnit c = [.atom (.lit c)] := by
        unfold lexUnit
        by_cases hd : c = '.'
        · subst hd
          simp
        · simp [hd, hs]
      rw [show lexedOf (c :: t) = .atom (.lit c) :: lexedOf t from by
        show lexUnit c ++ lexedOf t = _
        rw [hunit]
        rfl]
      rw [attach_cons _ _ (lexedOf_head t), ih]
      rw [show regexOf (c :: t) = (RAtom.lit c, RQuant.one) :: regexOf t from by
        show atomF c :: regexOf t = _
        unfold atomF
        rw [if_neg hs]]
      rfl

theorem regexOf_length (l : List Char) : (regexOf l).length = l.length := by
  induction l with
  | nil => rfl
  | cons c t ih => simp [regexOf, ih]

theorem rmatchF_globF : ∀ f : Nat, ∀ l s : List Char, l.length + s.length < f →
    rmatchF f (regexOf l) s = globF f l s := by
  intro f
  induction f with
  | zero => intro l s hlt; omega
  | succ f2 ih =>
    intro l s hlt
    cases l with
    | nil => rfl
    | cons c t =>
      simp only [List.length_cons] at hlt
      by_cases hs : c = '*'
      · subst hs
        rw [show regexOf ('*' :: t) = (RAtom.anyc, RQuant.star) :: regexOf t from rfl]
        cases s with
        | nil =>
          show (rmatchF f2 (regexOf t) [] || false) = (globF f2 t [] || false)
          rw [ih t [] (by simp only [List.length_nil]; omega)]
        | cons c0 s1 =>
          simp only [List.length_cons] at hlt
          show (rmatchF f2 (regexOf t) (c0 :: s1) ||
              (amatch .anyc c0 && rmatchF f2 ((RAtom.anyc, RQuant.star) :: regexOf t) s1))
            = (globF f2 t (c0 :: s1) || globF f2 ('*' :: t) s1)
          rw [show ((RAtom.anyc, RQuant.star) :: regexOf t : Regex) = regexOf ('*' :: t) from rfl]
          rw [ih t (c0 :: s1) (by simp only [List.length_cons]; omega)]
          rw [ih ('*' :: t) s1 (by simp only [List.length_cons]; omega)]
          rw [show amatch RAtom.anyc c0 = true from rfl]
          rw [Bool.true_and]
      · rw [show regexOf (c :: t) = (RAtom.lit c, RQuant.one) :: regexOf t from by
          show atomF c :: regexOf t = _
          unfold atomF
          rw [if_neg hs]]
        cases s with
        | nil =>
          show false = (if c = '*' then (globF f2 t [] || false) else false)
          rw [if_neg hs]
        | cons c0 s1 =>
          simp only [List.length_cons] at hlt
          show (amatch (.lit c) c0 && rmatchF f2 (regexOf t) s1)
            = (if c = '*' then (globF f2 t (c0 :: s1) || globF f2 (c :: t) s1)
               else ((c == c0) && globF f2 t s1))
          rw [if_neg hs, ih t s1 (by omega)]
          rfl

theorem rmatch_glob (l s : List Char) : rmatch (regexOf l) s = globMatch l s := by
  unfold rmatch globMatch
  rw [regexOf_length]
  exact rmatchF_globF (l.length + s.length + 1) l s (by omega)

/-! ### Claim theorems -/

/-- Claim C1 (code bug): `mv` performs no path-cache invalidation, so after a
successful move the source's former absolute path is still served from the
cache: on a filesystem with directories `/a` and `/b`, after `mv("/a","/b")`
resolving `"/a"` returns the moved node (id 1, whose absolute path is now
`/b/a`), while the uncached segment-by-segment walk from the root fails with
`PathNotFound` — the cached resolution disagrees with the uncached one. -/
theorem c1_mv_stale_cache :
    (mv fsC1 (.path "/a") (.path "/b")).1 = .ok 1
    ∧ (resolvePath (mv fsC1 (.path "/a") (.path "/b")).2 "/a").1 = .ok 1
    ∧ resolveUncached (mv fsC1 (.path "/a") (.path "/b")).2 "/a"
        = .error (.pathNotFound "/a")
    ∧ absolutePathOf (mv fsC1 (.path "/a") (.path "/b")).2 (some 1) = "/b/a" := by
  decide

/-- Claim C2 (code bug): `mv` detaches the source from its parent before the
insert that can fail.  Moving `/a/x` (id 2) into `/b`, which already has a
child named `x`, throws `DuplicateName` but leaves node 2 detached: `/a`'s
children are emptied and node 2's parent is null — a partial structural
change on a failed operation. -/
theorem c2_mv_partial_on_failure :
    (fsC2.getNode 1).map VNode.children = some [2]
    ∧ (fsC2.getNode 2).map VNode.parent = some (some 1)
    ∧ (mv fsC2 (.path "/a/x") (.path "/b")).1 = .error (.duplicateName "x")
    ∧ ((mv fsC2 (.path "/a/x") (.path "/b")).2.getNode 1).map VNode.children = some []
    ∧ ((mv fsC2 (.path "/a/x") (.path "/b")).2.getNode 2).map VNode.parent = some none := by
  decide

/-- Claim C3: `mv` into a strict descendant fails with `CyclicMove` leaving
the state untouched, and a successful `mv` preserves the moved node's
identity and children and re-attaches it under the destination. -/
theorem c3_mv_cyclic_guard_identity (fs : VFS) (a d : Nat) (dn : VNode)
    (hd : fs.getNode d = some dn) (hdir : dn.type = some "dir") :
    (isAncestorOfB fs a d = true → mvNodes fs a d = (.error .cyclicMove, fs))
    ∧ (∀ r fs', mvNodes fs a d = (.ok r, fs') →
        (fs.getNode a).bind VNode.parent ≠ some a →
        r = a
        ∧ (fs'.getNode a).bind VNode.parent = some d
        ∧ (∃ an an', fs.getNode a = some an ∧ fs'.getNode a = some an'
            ∧ ∀ c ∈ an.children, c ∈ an'.children)
        ∧ (∃ dn', fs'.getNode d = some dn' ∧ a ∈ dn'.children)) :=
  c3_mv_cyclic_guard_and_identity fs a d dn hd hdir

/-- Witness for C3: on `/a/d`, the destination is a strict descendant of the
source, and the move fails with `CyclicMove` leaving the state unchanged. -/
theorem c3_mv_witness :
    isAncestorOfB fsC3w 1 2 = true
    ∧ mvNodes fsC3w 1 2 = (.error .cyclicMove, fsC3w) :=
  ⟨by decide,
    (c3_mv_cyclic_guard_identity fsC3w 1 2 dnC3w (by decide) (by decide)).1 (by decide)⟩

/-- Claim C4 (code bug): after `rmdir` deletes the (empty) directory `/b`,
the source computes the removed node's path *after* detaching it (giving
`/b`) and compares it against the current directory's path `/bc` with a raw
string `startsWith` — which matches, so the current directory, although
entirely outside the removed subtree, is clobbered and reset to the root
instead of being left unchanged. -/
theorem c4_rmdir_cwd_clobbered :
    fsC4.cwd = some 2
    ∧ absolutePathOf fsC4 (some 2) = "/bc"
    ∧ absolutePathOf fsC4 (some 1) = "/b"
    ∧ (fsC4.getNode 1).map VNode.children = some []
    ∧ (rmdir fsC4 "/b").1 = .ok ()
    ∧ (rmdir fsC4 "/b").2.cwd = some 0
    ∧ (some 0 : Option Nat) ≠ some 2 := by
  decide

/-- Claim C5 (code bug): `rn` invalidates the raw `oldPath` string, but the
path cache is keyed by normalized absolute paths.  Renaming `b` to `c` via
the relative path `"b"` leaves the cache entry for `"/b"` in place, so
resolving `"b"` afterwards still returns the renamed node (now keyed `c`)
instead of failing with `PathNotFound` as the uncached walk does. -/
theorem c5_rn_stale_cache :
    (rn fsC5 "b" "c").1 = .ok ()
    ∧ ((rn fsC5 "b" "c").2.getNode 1).map VNode.key = some "c"
    ∧ (resolvePath (rn fsC5 "b" "c").2 "b").1 = .ok 1
    ∧ resolveUncached (rn fsC5 "b" "c").2 "/b" = .error (.pathNotFound "/b") := by
  decide

/-- Claim C6 (amended): `initStructure` drops every input field outside the
declared schema — no node it creates carries an unrecognized field (the
filesystem stays `noExtras` for every input record), whereas
`TreeStructure.fromJSON` passes unknown fields through (see the
counterexample theorem). -/
theorem c6_initStructure_drops_unknown_fields (fs : VFS) (r : IRec) (parent : Option Nat)
    (h : noExtras fs) : noExtras (initStructure fs r parent).2 :=
  initStructure_noExtras fs r parent h

/-- Witness for C6: a concrete record with an unrecognized `secret` field
produces no extra properties when imported through `initStructure`. -/
theorem c6_initStructure_witness :
    noExtras rootFS ∧ noExtras (initStructure rootFS rC6 (some 0)).2 :=
  ⟨by decide, c6_initStructure_drops_unknown_fields rootFS rC6 (some 0) (by decide)⟩

/-- Claim C6 counterexample: `fromJSON` spreads `...properties` into the
node, so the unrecognized field `foo` of the input record survives into the
rebuilt tree — unknown fields are not dropped on this import path. -/
theorem c6_fromJSON_keeps_unknown_fields :
    (VFS.fromJSON rootFS jC6).1 = .ok ()
    ∧ ((VFS.fromJSON rootFS jC6).2.getNode 0).map VNode.extra
        = some [("foo", .str "bar")]
    ∧ ((VFS.fromJSON rootFS jC6).2.getNode 0).map VNode.extra ≠ some [] := by
  decide

/-- Claim C7 (amended): for every pattern whose characters, apart from `*`
and `.`, carry no regex meaning, the source's matcher agrees with the
claimed semantics: literal patterns match by string equality, and patterns
containing `*` or `.` match with `*` as a wildcard and every other
character, including `.`, literal. -/
theorem c7_safe_pattern_match (p n : String)
    (h : p.data.all safeChar = true) :
    searchMatches p n = some (specMatches p n) := by
  unfold searchMatches specMatches
  by_cases hlit : (p.data.contains '*' = false ∧ p.data.contains '.' = false)
  · rw [if_pos hlit, if_pos hlit]
  · rw [if_neg hlit, if_neg hlit]
    have hsafe : ∀ c ∈ p.data, safeChar c = true := by
      intro c hc
      exact List.all_eq_true.mp h c hc
    have hparse : parseRegex (compilePattern p) = some (regexOf p.data) := by
      unfold parseRegex
      rw [show compilePattern p = compileChars p.data from rfl]
      rw [lex_compile p.data hsafe]
      show attachQuants (lexedOf p.data) = some (regexOf p.data)
      exact attach_lexed p.data
    rw [hparse]
    show some (rmatch (regexOf p.data) n.data) = some (globMatch p.data n.data)
    rw [rmatch_glob]

/-- Witness for C7: the safe pattern `ab*` is matched identically by the
source's compiled regex and by the claimed glob semantics. -/
theorem c7_safe_pattern_witness :
    ("ab*".data.all safeChar = true)
    ∧ searchMatches "ab*" "foo" = some (specMatches "ab*" "foo") :=
  ⟨by decide, c7_safe_pattern_match "ab*" "foo" (by decide)⟩

/-- Claim C7 counterexample: the pattern `a+*` contains `+`, which the
compiled regex keeps as a quantifier rather than a literal: the source's
matcher accepts the name `aa`, while the claimed semantics (every character
other than `*` literal) rejects it. -/
theorem c7_regex_meta_counterexample :
    searchMatches "a+*" "aa" = some true ∧ specMatches "a+*" "aa" = false := by
  decide

/-- Claim C8 (code bug): after `mv("/a","/b")` (which leaves a stale cache
entry for `/a`) and `mkdir "a"` (which re-creates a valid directory at `/a`
but invalidates only the raw relative string), `cd "/a"` resolves through
the stale cache entry to the moved node: `currentPath()` afterwards is
`/b/a`, not the normalized form `/a` of the perfectly valid path `/a`. -/
theorem c8_cd_stale_path :
    resolveUncached fsC8 "/a" = .ok 3
    ∧ (fsC8.getNode 3).map VNode.type = some (some "dir")
    ∧ normalizePath fsC8 "/a" = "/a"
    ∧ (cd fsC8 "/a").1 = .ok 1
    ∧ pwd (cd fsC8 "/a").2 = "/b/a"
    ∧ pwd (cd fsC8 "/a").2 ≠ normalizePath fsC8 "/a" := by
  decide

/-- Claim C9 counterexample: for the directory `/a` that contains a child
also named `a`, `mv(a, a)` raises `DuplicateName` (not the claimed
detach-and-self-insert): the node ends up detached with a null parent, not
with `a.parent === a`. -/
theorem c9_self_move_duplicate_child :
    (fsC9.getNode 1).map VNode.type = some (some "dir")
    ∧ (fsC9.getNode 1).map VNode.parent = some (some 0)
    ∧ (mvNodes fsC9 1 1).1 = .error (.duplicateName "a")
    ∧ ((mvNodes fsC9 1 1).2.getNode 1).map VNode.parent = some none
    ∧ ((mvNodes fsC9 1 1).2.getNode 1).map VNode.parent ≠ some (some 1) := by
  decide

/-- Claim C9 (amended): provided the non-root directory has no child bearing
its own name, `mv(a, a)` passes the strict ancestor check and succeeds,
leaving `a.parent = a`, `a` among its own children, and `a` removed from its
former parent's children — the subtree is disconnected from the root. -/
theorem c9_self_move_orphans (fs : VFS) (a p : Nat) (an pn : VNode)
    (ha : fs.getNode a = some an) (htype : an.type = some "dir")
    (hpar : an.parent = some p) (hpa : p ≠ a)
    (hp : fs.getNode p = some pn)
    (hanc : isAncestorOfB fs a a = false)
    (hnodup : hasChildKey fs a an.key = false) :
    ∃ fs', mvNodes fs a a = (.ok a, fs')
      ∧ (fs'.getNode a).bind VNode.parent = some a
      ∧ (∃ an', fs'.getNode a = some an' ∧ a ∈ an'.children
          ∧ ∀ c ∈ an.children, c ∈ an'.children)
      ∧ (fs'.getNode p).map VNode.children = some (pn.children.erase a) :=
  c9_self_move_orphans_subtree fs a p an pn ha htype hpar hpa hp hanc hnodup

/-- Witness for C9 (amended): on `/a` with child `/a/b`, the self-move
succeeds and orphans the subtree. -/
theorem c9_self_move_witness :
    fsC9w.getNode 1 = some anC9w
    ∧ (∃ fs', mvNodes fsC9w 1 1 = (.ok 1, fs')
        ∧ (fs'.getNode 1).bind VNode.parent = some 1
        ∧ (∃ an', fs'.getNode 1 = some an' ∧ 1 ∈ an'.children
            ∧ ∀ c ∈ anC9w.children, c ∈ an'.children)
        ∧ (fs'.getNode 0).map VNode.children = some (pnC9w.children.erase 1)) :=
  ⟨by decide, c9_self_move_orphans fsC9w 1 0 anC9w pnC9w (by decide) (by decide)
    (by decide) (by decide) (by decide) (by decide) (by decide)⟩

/-- Claim C10: append-mode `cat` on a path whose parent directory exists but
whose file does not creates the file with exactly the given contents. -/
theorem c10_append_missing_file (fs fs1 : VFS) (p pp fn c : String) (d : Nat) (dn : VNode)
    (hpne : p ≠ "")
    (hsplit : catSplit p = (pp, fn))
    (hres : resolvePath fs pp = (.ok d, fs1))
    (hd : fs1.getNode d = some dn)
    (hdir : dn.type = some "dir")
    (hrange : ∀ i ∈ dn.children, i < fs1.nodes.length)
    (hmiss : findChildId fs1 d fn = none) :
    ∃ fs' n', cat fs ">>" p c = (.ok none, fs')
      ∧ fs'.getNode fs1.nodes.length = some n'
      ∧ n'.key = fn ∧ n'.type = some "file" ∧ n'.contents = some c
      ∧ n'.size = c.utf8ByteSize ∧ n'.parent = some d
      ∧ (fs'.getNode d).map VNode.children = some (dn.children ++ [fs1.nodes.length]) :=
  c10_append_creates_file fs fs1 p pp fn c d dn hpne hsplit hres hd hdir hrange hmiss

/-- Witness for C10: appending `"hi"` to the missing `/a/f` creates the file
with contents `hi` and size 2. -/
theorem c10_append_witness :
    catSplit "/a/f" = ("/a", "f")
    ∧ (∃ fs' n', cat fsA ">>" "/a/f" "hi" = (.ok none, fs')
        ∧ fs'.getNode fsA1.nodes.length = some n'
        ∧ n'.key = "f" ∧ n'.type = some "file" ∧ n'.contents = some "hi"
        ∧ n'.size = "hi".utf8ByteSize ∧ n'.parent = some 1
        ∧ (fs'.getNode 1).map VNode.children = some (dnA.children ++ [fsA1.nodes.length])) :=
  ⟨by decide, c10_append_missing_file fsA fsA1 "/a/f" "/a" "f" "hi" 1 dnA (by decide)
    (by decide) (by decide) (by decide) (by decide) (by decide) (by decide)⟩


end TermE
